import Mathlib

/-!
Verification of the content-analysis engine of the release-documentation
repository (`content_analyzer.py`).

The engine is embedded shallowly: text is `List Char`, each Python helper
of the `ContentAnalyzer` class becomes a Lean function of the same name,
and the regular expressions of the source are compiled by hand into
deterministic character scanners that reproduce the behaviour of Python's
`re` module on the concrete patterns appearing in the source (leftmost
search, greedy quantifiers with the backtracking the concrete pattern
needs, non-overlapping `findall`, `$` accepting one trailing newline).
Character classes (`\s`, `\d`, `\w`) and `str.lower`/`str.upper`/
`str.title` are modelled over their ASCII behaviour.

Two effects of the Python code are made explicit parameters so that the
embedding is a total function: the current date string
(`datetime.now().strftime("%B %d, %Y")`, parameter `now`) and the count of
merge requests fetched from object storage by the external collaborator
`count_mrs_in_release` (parameter `mrCount`).
-/

/-- ASCII whitespace, the `\s` class and the characters stripped by
`str.strip()` / split by `str.split()`. -/
def isSpaceCh (c : Char) : Bool :=
  c == ' ' || c == '\t' || c == '\n' || c == '\r' ||
    c == Char.ofNat 11 || c == Char.ofNat 12

/-- The `\w` class: ASCII letters, digits and underscore. -/
def isWordCh (c : Char) : Bool := c.isAlphanum || c == '_'

/-- `str.lower()` (ASCII). -/
def toLowerL (l : List Char) : List Char := l.map Char.toLower

/-- `str.upper()` (ASCII). -/
def toUpperL (l : List Char) : List Char := l.map Char.toUpper

/-- `str.split('\n')`: list of lines; the empty text has one empty line. -/
def splitLines : List Char → List (List Char)
  | [] => [[]]
  | c :: t =>
    if c = '\n' then [] :: splitLines t
    else
      match splitLines t with
      | [] => [[c]]
      | h :: r => (c :: h) :: r

/-- `str.strip()`: drop whitespace at both ends. -/
def stripL (l : List Char) : List Char :=
  ((l.dropWhile isSpaceCh).reverse.dropWhile isSpaceCh).reverse

/-- Helper for `wordCount`: the flag records whether the previous
character belonged to a word. -/
def wordCountAux : Bool → List Char → Nat
  | _, [] => 0
  | inW, c :: t =>
    if isSpaceCh c then wordCountAux false t
    else (if inW then 0 else 1) + wordCountAux true t

/-- `len(s.split())`: number of maximal runs of non-whitespace. -/
def wordCount (l : List Char) : Nat := wordCountAux false l

/-- Match a literal at the head of the input; on success return the rest. -/
def tryLiteral : List Char → List Char → Option (List Char)
  | [], l => some l
  | _ :: _, [] => none
  | p :: ps, c :: t => if p = c then tryLiteral ps t else none

/-- `re.search`: try the position matcher `f` at every suffix, leftmost
success wins. -/
def scanOpt (f : List Char → Option α) : List Char → Option α
  | [] => f []
  | c :: t =>
    match f (c :: t) with
    | some r => some r
    | none => scanOpt f t

/-- Python's substring test `needle in hay`. -/
def containsSub (needle hay : List Char) : Bool :=
  (scanOpt (tryLiteral needle) hay).isSome

/-- `len(re.findall ...)`: count non-overlapping matches, resuming after
the end of each match.  `f` returns the rest of the input after a match;
every matcher used consumes at least one character, so fuel
`length + 1` never runs out. -/
def countScan (f : List Char → Option (List Char)) : Nat → List Char → Nat
  | 0, _ => 0
  | fuel + 1, l =>
    match f l with
    | some r => 1 + countScan f fuel r
    | none =>
      match l with
      | [] => 0
      | _ :: t => countScan f fuel t

/-- Count the non-overlapping matches of `f` in `l`. -/
def countPat (f : List Char → Option (List Char)) (l : List Char) : Nat :=
  countScan f (l.length + 1) l

/-- Try each alternative of an alternation in order at the head of the
input (the alternation lists of the source are mutually prefix-free). -/
def tryAltHere (alts : List (List Char)) (l : List Char) : Option (List Char) :=
  match alts with
  | [] => none
  | a :: rest =>
    match tryLiteral a l with
    | some r => some r
    | none => tryAltHere rest l

/-- Start-of-match test for `\b` in front of a word character: the
previous character (if any) must not be a word character. -/
def boundaryOk (prev : Option Char) : Bool :=
  match prev with
  | none => true
  | some p => !(isWordCh p)

/-- End-of-match test for `\b` after a word character. -/
def endBoundary (l : List Char) : Bool :=
  match l with
  | [] => true
  | c :: _ => !(isWordCh c)

/-- One position of `\b(alt1|alt2|...)\b`: try the alternatives in order;
an alternative succeeds when it matches literally and both boundaries
hold.  Returns the matched alternative and the rest. -/
def tryAltsB (alts : List (List Char)) (prev : Option Char) (l : List Char) :
    Option (List Char × List Char) :=
  match alts with
  | [] => none
  | a :: rest =>
    match tryLiteral a l with
    | some r =>
      if boundaryOk prev && endBoundary r then some (a, r)
      else tryAltsB rest prev l
    | none => tryAltsB rest prev l

/-- `re.findall` for `\b(...)\b` patterns, threading the previous
character for the boundary test. -/
def scanBList (alts : List (List Char)) : Nat → Option Char → List Char → List (List Char)
  | 0, _, _ => []
  | fuel + 1, prev, l =>
    match tryAltsB alts prev l with
    | some (a, r) => a :: scanBList alts fuel a.getLast? r
    | none =>
      match l with
      | [] => []
      | c :: t => scanBList alts fuel (some c) t

/-- All matches of `\b(alt1|...)\b` in `l`, in order. -/
def findallB (alts : List (List Char)) (l : List Char) : List (List Char) :=
  scanBList alts (l.length + 1) none l

/-! ## Section-item counting (`_count_section_items`) -/

/-- Position matcher for `#+\s*<name>` (the section-header pattern built
with `re.escape(section_name)`); returns the text after the matched
name, i.e. the `match.end()` suffix. -/
def headerMatchRem (name l : List Char) : Option (List Char) :=
  let hs := l.takeWhile (· == '#')
  if hs.isEmpty then none
  else tryLiteral name ((l.drop hs.length).dropWhile isSpaceCh)

/-- `re.search(rf'#+\s*{name}', content_lower)`, as the suffix after the
match. -/
def searchSection (name : List Char) (l : List Char) : Option (List Char) :=
  scanOpt (headerMatchRem name) l

/-- Head test for `#+\s` (used after a newline to find the next header). -/
def isHeaderBreak (l : List Char) : Bool :=
  let hs := l.takeWhile (· == '#')
  !hs.isEmpty &&
    (match l.drop hs.length with
     | c :: _ => isSpaceCh c
     | [] => false)

/-- Head test for `\n#+\s`. -/
def isBreakAt : List Char → Bool
  | c :: t => c == '\n' && isHeaderBreak t
  | [] => false

/-- The slice `content_lower[start_pos : start_pos + next_header.start()]`:
everything before the first `\n#+\s`, or the whole text when there is no
further header. -/
def spanUntilHeader : List Char → List Char
  | [] => []
  | c :: t => if isBreakAt (c :: t) then [] else c :: spanUntilHeader t

/-- The characters of the source's bullet character class `[-*â€¢]` (the
file literally contains the three characters U+00E2, U+20AC, U+00A2). -/
def bulletCh (c : Char) : Bool :=
  c == '-' || c == '*' || c == Char.ofNat 226 || c == Char.ofNat 8364 ||
    c == Char.ofNat 162

/-- Position matcher for `\n\s*[-*â€¢]\s+` (greedy, as the Python engine
matches it). -/
def tryBullet : List Char → Option (List Char)
  | '\n' :: t =>
    match t.dropWhile isSpaceCh with
    | c :: t2 =>
      if bulletCh c then
        match t2 with
        | c2 :: _ => if isSpaceCh c2 then some (t2.dropWhile isSpaceCh) else none
        | [] => none
      else none
    | [] => none
  | _ => none

/-- Position matcher for `\n\s*\d+\.\s+`. -/
def tryNumbered : List Char → Option (List Char)
  | '\n' :: t =>
    let r := t.dropWhile isSpaceCh
    let ds := r.takeWhile Char.isDigit
    if ds.isEmpty then none
    else
      match r.drop ds.length with
      | '.' :: t2 =>
        match t2 with
        | c2 :: _ => if isSpaceCh c2 then some (t2.dropWhile isSpaceCh) else none
        | [] => none
      | _ => none
  | _ => none

/-- Contribution of one candidate section name: zero when its header
pattern does not occur, else the bullet-point and numbered-item counts of
the slice between the match end and the next header. -/
def countOneSection (name low : List Char) : Nat :=
  match searchSection name low with
  | none => 0
  | some rest =>
    countPat tryBullet (spanUntilHeader rest) +
      countPat tryNumbered (spanUntilHeader rest)

/-- `_count_section_items(content, section_names)`: lowercase the text and
sum the contributions of all candidate names. -/
def countSectionItems (names : List (List Char)) (content : List Char) : Nat :=
  (names.map (fun n => countOneSection n (toLowerL content))).sum

/-! ## Feature counting (`_count_features`) -/

/-- Alternation of the pattern `new\s+(feature|functionality|capability|module)`. -/
def featAlts1 : List (List Char) :=
  ["feature", "functionality", "capability", "module"].map String.data

/-- Alternation shared by the introduce/add/implement patterns. -/
def featAlts2 : List (List Char) :=
  ["feature", "functionality", "capability"].map String.data

/-- Position matcher for `new\s+(feature|functionality|capability|module)`. -/
def tryPat1 (l : List Char) : Option (List Char) :=
  match tryLiteral "new".data l with
  | none => none
  | some r =>
    let ws := r.takeWhile isSpaceCh
    if ws.isEmpty then none else tryAltHere featAlts1 (r.drop ws.length)

/-- The lazy part `.*?(alt1|...)`: advance over characters other than
newline until an alternative matches; `.` cannot cross a newline. -/
def scanAltNoNl (alts : List (List Char)) : List Char → Option (List Char)
  | [] => none
  | c :: t =>
    match tryAltHere alts (c :: t) with
    | some r => some r
    | none => if c == '\n' then none else scanAltNoNl alts t

/-- Position matcher for `verb[xy]?\s+.*?(alt1|...)` — the shape of the
`introduce[sd]?`, `add[ed]?` and `implement[ed]?` feature patterns.  The
optional class consumes its character exactly when present (skipping it
could never help the rest of the pattern), `\s+` takes the maximal
whitespace run, and the lazy `.*?` stops at the first alternative
reachable without crossing a newline. -/
def tryVerbPat (verb : List Char) (opt : List Char) (alts : List (List Char))
    (l : List Char) : Option (List Char) :=
  match tryLiteral verb l with
  | none => none
  | some r =>
    let r1 :=
      match r with
      | c :: t => if opt.contains c then t else r
      | [] => r
    let ws := r1.takeWhile isSpaceCh
    if ws.isEmpty then none else scanAltNoNl alts (r1.drop ws.length)

/-- Candidate header names of the features category. -/
def featureSections : List (List Char) :=
  ["new features", "features", "additions"].map String.data

/-- `_count_features`: the four regex pattern counts over the lowercased
text plus the section-item count, floored at 1. -/
def countFeatures (content : List Char) : Nat :=
  let low := toLowerL content
  Nat.max
    (countPat tryPat1 low +
      countPat (tryVerbPat "introduce".data ['s', 'd'] featAlts2) low +
      countPat (tryVerbPat "add".data ['e', 'd'] featAlts2) low +
      countPat (tryVerbPat "implement".data ['e', 'd'] featAlts2) low +
      countSectionItems featureSections content)
    1

/-- The improvements keyword list of `project_keywords`. -/
def improvementKeywords : List (List Char) :=
  ["improvement", "enhancement", "optimize", "performance", "upgrade", "refactor"].map
    String.data

/-- The changes keyword list of `project_keywords`. -/
def changeKeywords : List (List Char) :=
  ["change", "update", "modify", "fix", "bug", "issue", "patch"].map String.data

/-- `_count_improvements`: `\b(kw1|...)\b` matches plus section items. -/
def countImprovements (content : List Char) : Nat :=
  (findallB improvementKeywords (toLowerL content)).length +
    countSectionItems (["improvements", "enhancements", "optimizations"].map String.data)
      content

/-- `_count_changes`: `\b(kw1|...)\b` matches plus section items. -/
def countChanges (content : List Char) : Nat :=
  (findallB changeKeywords (toLowerL content)).length +
    countSectionItems (["changes", "updates", "fixes", "bug fixes"].map String.data)
      content

/-! ## Title and summary extraction -/

/-- `re.sub(r'^#+\s*', '', s)`. -/
def reSubHashWs (l : List Char) : List Char :=
  match l with
  | '#' :: _ => (l.dropWhile (· == '#')).dropWhile isSpaceCh
  | _ => l

/-- The selection test of `_extract_title`:
`line.strip().startswith('#') and len(line.strip()) > 1`. -/
def titleLineOk (line : List Char) : Bool :=
  let s := stripL line
  (match s with
   | '#' :: _ => true
   | _ => false) && s.length > 1

/-- The loop of `_extract_title` over the lines. -/
def extractTitleLines : List (List Char) → List Char
  | [] => "Release Documentation".data
  | ln :: rest =>
    if titleLineOk ln then reSubHashWs (stripL ln) else extractTitleLines rest

/-- `_extract_title`. -/
def extractTitle (content : List Char) : List Char :=
  extractTitleLines (splitLines content)

/-- The selection test of `_extract_summary`: stripped length over 50 and
no leading heading, bullet or blockquote marker. -/
def summaryLineOk (line : List Char) : Bool :=
  let s := stripL line
  s.length > 50 &&
    (match s with
     | c :: _ => !(c == '#' || c == '-' || c == '*' || c == '>')
     | [] => true)

/-- The loop of `_extract_summary` over the lines. -/
def extractSummaryLines : List (List Char) → List Char
  | [] => "This release introduces enhancements to the system functionality and user experience.".data
  | ln :: rest =>
    if summaryLineOk ln then stripL ln else extractSummaryLines rest

/-- `_extract_summary`. -/
def extractSummary (content : List Char) : List Char :=
  extractSummaryLines (splitLines content)

/-! ## Project name extraction (`_extract_project_name`) -/

/-- `str.title()` (ASCII): uppercase a letter that does not follow a
letter, lowercase a letter that does. -/
def pyTitleAux : Bool → List Char → List Char
  | _, [] => []
  | prevAlpha, c :: t =>
    (if c.isAlpha then (if prevAlpha then c.toLower else c.toUpper) else c) ::
      pyTitleAux c.isAlpha t

/-- `str.title()`. -/
def pyTitle (l : List Char) : List Char := pyTitleAux false l

/-- `.replace('_', ' ').replace('-', ' ')`. -/
def sepToSpace (l : List Char) : List Char :=
  l.map (fun c => if c == '_' || c == '-' then ' ' else c)

/-- Position matcher for `(library\s+management\s+system)`; the group is
the matched text itself, internal whitespace included. -/
def tryProj1 (l : List Char) : Option (List Char) :=
  match tryLiteral "library".data l with
  | none => none
  | some r =>
    let ws1 := r.takeWhile isSpaceCh
    if ws1.isEmpty then none
    else
      match tryLiteral "management".data (r.drop ws1.length) with
      | none => none
      | some r2 =>
        let ws2 := r2.takeWhile isSpaceCh
        if ws2.isEmpty then none
        else
          match tryLiteral "system".data (r2.drop ws2.length) with
          | none => none
          | some _ =>
            some ("library".data ++ ws1 ++ "management".data ++ ws2 ++ "system".data)

/-- Position matcher for `(demo-project)`. -/
def tryProj2 (l : List Char) : Option (List Char) :=
  (tryLiteral "demo-project".data l).map (fun _ => "demo-project".data)

/-- One backtracking attempt of `(\w+[-_]\w+)\s+(?:project|system|platform)`
with the first `\w+` bound to exactly `k` characters. -/
def tryProj3With (k : Nat) (l : List Char) : Option (List Char) :=
  let a := l.take k
  if a.length = k && a.all isWordCh then
    match l.drop k with
    | sep :: r =>
      if sep == '-' || sep == '_' then
        let b := r.takeWhile isWordCh
        if b.isEmpty then none
        else
          let r2 := r.drop b.length
          let ws := r2.takeWhile isSpaceCh
          if ws.isEmpty then none
          else
            match tryAltHere (["project", "system", "platform"].map String.data)
                (r2.drop ws.length) with
            | some _ => some (a ++ sep :: b)
            | none => none
      else none
    | [] => none
  else none

/-- Backtracking over the length of the first `\w+`, longest first. -/
def tryProj3K : Nat → List Char → Option (List Char)
  | 0, _ => none
  | k + 1, l =>
    match tryProj3With (k + 1) l with
    | some g => some g
    | none => tryProj3K k l

/-- Position matcher for `(\w+[-_]\w+)\s+(?:project|system|platform)`. -/
def tryProj3 (l : List Char) : Option (List Char) :=
  tryProj3K (l.takeWhile isWordCh).length l

/-- Position matcher for `(?:project|system):\s*(\w+[-_\w]*)`. -/
def tryProj4 (l : List Char) : Option (List Char) :=
  match
    (match tryLiteral "project:".data l with
     | some r => some r
     | none => tryLiteral "system:".data l) with
  | none => none
  | some r =>
    let r2 := r.dropWhile isSpaceCh
    match r2 with
    | c :: _ =>
      if isWordCh c then some (r2.takeWhile (fun ch => isWordCh ch || ch == '-'))
      else none
    | [] => none

/-- `match.group(1).title().replace('_', ' ').replace('-', ' ')`. -/
def projFinish (g : List Char) : String := String.mk (sepToSpace (pyTitle g))

/-- `_extract_project_name`: the four patterns in order, first search hit
wins, with the fixed default. -/
def extractProjectName (content : List Char) : String :=
  let low := toLowerL content
  match scanOpt tryProj1 low with
  | some g => projFinish g
  | none =>
    match scanOpt tryProj2 low with
    | some g => projFinish g
    | none =>
      match scanOpt tryProj3 low with
      | some g => projFinish g
      | none =>
        match scanOpt tryProj4 low with
        | some g => projFinish g
        | none => "Library Management System"

/-! ## Release date extraction (`_extract_release_date`) -/

/-- Case-insensitive literal match (the pattern is given lowercased);
returns the consumed original characters and the rest. -/
def tryLiteralCI : List Char → List Char → Option (List Char × List Char)
  | [], l => some ([], l)
  | _ :: _, [] => none
  | p :: ps, c :: t =>
    if p = c.toLower then
      match tryLiteralCI ps t with
      | some (g, r) => some (c :: g, r)
      | none => none
    else none

/-- The month-name alternation, in source order. -/
def monthNames : List (List Char) :=
  ["january", "february", "march", "april", "may", "june", "july", "august",
    "september", "october", "november", "december"].map String.data

/-- Try the month alternatives in order. -/
def tryMonth (months : List (List Char)) (l : List Char) :
    Option (List Char × List Char) :=
  match months with
  | [] => none
  | m :: rest =>
    match tryLiteralCI m l with
    | some p => some p
    | none => tryMonth rest l

/-- Exactly `n` digits. -/
def tryDigits : Nat → List Char → Option (List Char × List Char)
  | 0, l => some ([], l)
  | _ + 1, [] => none
  | n + 1, c :: t =>
    if c.isDigit then (tryDigits n t).map (fun p => (c :: p.1, p.2)) else none

/-- `\s+` (greedy; in every use the following pattern element cannot
match whitespace, so the maximal run is the only candidate). -/
def tryWsPlus (l : List Char) : Option (List Char × List Char) :=
  let ws := l.takeWhile isSpaceCh
  if ws.isEmpty then none else some (ws, l.drop ws.length)

/-- `\d{1,2}` followed by `after`, with the greedy two-then-one
backtracking of the Python engine. -/
def tryD12With (after : List Char → Option (List Char × List Char))
    (l : List Char) : Option (List Char × List Char) :=
  let one : Option (List Char × List Char) :=
    match tryDigits 1 l with
    | some (g1, r1) => (after r1).map (fun p => (g1 ++ p.1, p.2))
    | none => none
  match tryDigits 2 l with
  | some (g2, r2) =>
    match after r2 with
    | some p => some (g2 ++ p.1, p.2)
    | none => one
  | none => one

/-- `,?\s+\d{4}` without the optional comma. -/
def tryNoComma (l : List Char) : Option (List Char × List Char) :=
  match tryWsPlus l with
  | some (ws, r) => (tryDigits 4 r).map (fun p => (ws ++ p.1, p.2))
  | none => none

/-- `,?\s+\d{4}`: prefer consuming the comma, backtrack to skipping it. -/
def tryD1After (l : List Char) : Option (List Char × List Char) :=
  match l with
  | ',' :: t =>
    (match tryNoComma t with
     | some (g, r) => some (',' :: g, r)
     | none => tryNoComma l)
  | _ => tryNoComma l

/-- Position matcher for the month-name date pattern; returns
`match.group(0)`. -/
def tryDate1 (l : List Char) : Option (List Char) :=
  match tryMonth monthNames l with
  | none => none
  | some (gm, r) =>
    match tryWsPlus r with
    | none => none
    | some (gw, r2) =>
      match tryD12With tryD1After r2 with
      | some p => some (gm ++ gw ++ p.1)
      | none => none

/-- The slash-or-dash separator class of the numeric date patterns. -/
def trySep (l : List Char) : Option (List Char × List Char) :=
  match l with
  | c :: t => if c == '/' || c == '-' then some ([c], t) else none
  | [] => none

/-- Position matcher for the day-month-year numeric date pattern (one or two digits, separator, one or two digits, separator, four digits). -/
def tryDate2 (l : List Char) : Option (List Char) :=
  (tryD12With
      (fun r =>
        match trySep r with
        | none => none
        | some (gs, r2) =>
          match
            tryD12With
              (fun r3 =>
                match trySep r3 with
                | none => none
                | some (gs2, r4) => (tryDigits 4 r4).map (fun p => (gs2 ++ p.1, p.2)))
              r2 with
          | some p => some (gs ++ p.1, p.2)
          | none => none)
      l).map (fun p => p.1)

/-- Position matcher for the year-month-day numeric date pattern (four digits, separator, then twice one or two digits). -/
def tryDate3 (l : List Char) : Option (List Char) :=
  match tryDigits 4 l with
  | none => none
  | some (g4, r) =>
    match trySep r with
    | none => none
    | some (gs, r2) =>
      match
        tryD12With
          (fun r3 =>
            match trySep r3 with
            | none => none
            | some (gs2, r4) =>
              (tryD12With (fun r5 => some ([], r5)) r4).map
                (fun p => (gs2 ++ p.1, p.2)))
          r2 with
      | some p => some (g4 ++ gs ++ p.1)
      | none => none

/-- The date-pattern part of `_extract_release_date`: the three patterns
in order against the raw text, first search hit wins; `none` models the
fall-through to the current date. -/
def extractReleaseDateOpt (content : List Char) : Option (List Char) :=
  match scanOpt tryDate1 content with
  | some g => some g
  | none =>
    match scanOpt tryDate2 content with
    | some g => some g
    | none => scanOpt tryDate3 content

/-! ## Technical highlights (`_extract_technical_highlights`) -/

/-- The technical keyword list of `project_keywords`. -/
def technicalKeywords : List (List Char) :=
  ["api", "database", "service", "class", "method", "function"].map String.data

/-- First code-pattern alternation. -/
def codeAlts1 : List (List Char) :=
  ["class", "method", "function", "api", "endpoint", "service"].map String.data

/-- Second code-pattern alternation. -/
def codeAlts2 : List (List Char) :=
  ["database", "sql", "json", "xml", "rest"].map String.data

/-- Third code-pattern alternation. -/
def codeAlts3 : List (List Char) :=
  ["authentication", "authorization", "security"].map String.data

/-- `_extract_technical_highlights`: substring keyword hits, then the
three boundary-pattern match lists, uppercased, deduplicated (the Python
`set` order is unspecified; `List.dedup` is one choice of order) and
capped at five. -/
def extractTechnicalHighlights (content : List Char) : List String :=
  let low := toLowerL content
  let kwHits := (technicalKeywords.filter (fun k => containsSub k low)).map toUpperL
  let patHits :=
    (findallB codeAlts1 low ++ findallB codeAlts2 low ++ findallB codeAlts3 low).map
      toUpperL
  (((kwHits ++ patHits).dedup).take 5).map (fun x => String.mk x)

/-! ## Scoring and classification -/

/-- `_calculate_complexity_score`. -/
def calculateComplexityScore (content : List Char) : String :=
  let words := wordCount content
  let technicalCount := (extractTechnicalHighlights content).length
  if words > 1000 || technicalCount > 10 then "High"
  else if words > 500 || technicalCount > 5 then "Medium"
  else "Low"

/-- Strip a leading literal `v` (the `v?` of the version pattern; when
the head is a digit the optional `v` can only match empty). -/
def dropV (l : List Char) : List Char :=
  match l with
  | c :: t => if c = 'v' then t else l
  | [] => l

/-- Anchored match of `v?\d+\.0(?:\.0)?` against the whole input. -/
def matchMajorCore (l : List Char) : Bool :=
  let l1 := dropV l
  let ds := l1.takeWhile Char.isDigit
  !ds.isEmpty &&
    (l1.drop ds.length == ['.', '0'] || l1.drop ds.length == ['.', '0', '.', '0'])

/-- `re.match(r'v?\d+\.0(?:\.0)?$', version)`: Python's `$` also matches
just before a single trailing newline. -/
def isMajorVersion (v : List Char) : Bool :=
  matchMajorCore v || (v.getLast? == some '\n' && matchMajorCore v.dropLast)

/-- The maintenance keywords tested by substring containment. -/
def fixKeywords : List (List Char) :=
  ["fix", "bug", "patch", "hotfix"].map String.data

/-- `_determine_release_type`. -/
def determineReleaseType (version content : List Char) : String :=
  if isMajorVersion version then "Major Release"
  else if countFeatures content > 3 then "Feature Release"
  else if fixKeywords.any (fun k => containsSub k (toLowerL content)) then
    "Maintenance Release"
  else "Standard Release"

/-! ## The analysis records -/

/-- The output record of `analyze_release_content` (§3 AnalysisRecord). -/
structure AnalysisRecord where
  title : String
  summary : String
  features_count : Nat
  improvements_count : Nat
  changes_count : Nat
  mr_count : Nat
  project_name : String
  release_date : String
  technical_highlights : List String
  complexity_score : String
  release_type : String
deriving DecidableEq

/-- `_empty_analysis`; `now` models `datetime.now().strftime("%B %d, %Y")`. -/
def emptyAnalysis (now : String) : AnalysisRecord :=
  { title := "Release Documentation"
    summary := "No content available for analysis."
    features_count := 0
    improvements_count := 0
    changes_count := 0
    mr_count := 0
    project_name := "Project"
    release_date := now
    technical_highlights := []
    complexity_score := "Low"
    release_type := "Unknown" }

/-- `analyze_release_content(content, release_version)`.  `now` models the
current-date string and `mrCount` the value of the external collaborator
call `count_mrs_in_release(release_version)`. -/
def analyzeReleaseContent (content releaseVersion now : String) (mrCount : Nat) :
    AnalysisRecord :=
  if content = "" then emptyAnalysis now
  else
    { title := String.mk (extractTitle content.data)
      summary := String.mk (extractSummary content.data)
      features_count := countFeatures content.data
      improvements_count := countImprovements content.data
      changes_count := countChanges content.data
      mr_count := mrCount
      project_name := extractProjectName content.data
      release_date := String.mk ((extractReleaseDateOpt content.data).getD now.data)
      technical_highlights := extractTechnicalHighlights content.data
      complexity_score := calculateComplexityScore content.data
      release_type := determineReleaseType releaseVersion.data content.data }

/-- The output record of `analyze_mr_content` (§3 MrAnalysisRecord). -/
structure MrAnalysisRecord where
  type : String
  impact : String
  files_changed : Nat
  lines_changed : String
deriving DecidableEq

/-- `_determine_mr_type`. -/
def determineMrType (content : List Char) : String :=
  let low := toLowerL content
  if (["feature", "new", "add"].map String.data).any (fun k => containsSub k low) then
    "Feature"
  else if (["fix", "bug", "issue"].map String.data).any (fun k => containsSub k low) then
    "Bug Fix"
  else if (["refactor", "improve", "optimize"].map String.data).any
      (fun k => containsSub k low) then "Improvement"
  else "Other"

/-- Position matcher for `\b\w+X\w+\b` with separator `X` (`.` or `/`),
the two file patterns of `_count_files_changed`; both `\w+` are greedy
and need no backtracking, and the final boundary holds by maximality. -/
def tryFileRef (sep : Char) (prev : Option Char) (l : List Char) :
    Option (List Char × List Char) :=
  if boundaryOk prev then
    let a := l.takeWhile isWordCh
    if a.isEmpty then none
    else
      match l.drop a.length with
      | c :: t =>
        if c = sep then
          let b := t.takeWhile isWordCh
          if b.isEmpty then none else some (a ++ c :: b, t.drop b.length)
        else none
      | [] => none
  else none

/-- `re.findall` for one file pattern, threading the previous character. -/
def scanFileRefs (sep : Char) : Nat → Option Char → List Char → List (List Char)
  | 0, _, _ => []
  | fuel + 1, prev, l =>
    match tryFileRef sep prev l with
    | some (m, r) => m :: scanFileRefs sep fuel m.getLast? r
    | none =>
      match l with
      | [] => []
      | c :: t => scanFileRefs sep fuel (some c) t

/-- `_count_files_changed`: the distinct matches of both patterns. -/
def countFilesChanged (content : List Char) : Nat :=
  ((scanFileRefs '.' (content.length + 1) none content ++
      scanFileRefs '/' (content.length + 1) none content).dedup).length

/-- `_assess_mr_impact`. -/
def assessMrImpact (content : List Char) : String :=
  let words := wordCount content
  if words > 500 then "High" else if words > 200 then "Medium" else "Low"

/-- `_estimate_lines_changed`. -/
def estimateLinesChanged (content : List Char) : String :=
  let words := wordCount content
  if words > 300 then "100+" else if words > 150 then "50-100" else "<50"

/-- `analyze_mr_content` (its `mr_info` argument is unused by the source). -/
def analyzeMrContent (content : String) : MrAnalysisRecord :=
  { type := determineMrType content.data
    impact := assessMrImpact content.data
    files_changed := countFilesChanged content.data
    lines_changed := estimateLinesChanged content.data }

/-! ## Specification-side definitions

The definitions of this section are written from the words of the
specification (or of a claim under test), not from the source, and are
compared with the source embedding above. -/

/-- A heading line in the line-based sense of the claim wording: its
stripped form starts with heading markers; the heading text is what
follows the marker run and subsequent whitespace. -/
def headingTextOf (line : List Char) : Option (List Char) :=
  let s := stripL line
  match s with
  | '#' :: _ => some ((s.dropWhile (· == '#')).dropWhile isSpaceCh)
  | _ => none

/-- A bullet-point line: optional indentation, a bullet character, then
whitespace. -/
def bulletLine (line : List Char) : Bool :=
  match line.dropWhile isSpaceCh with
  | c :: c2 :: _ => bulletCh c && isSpaceCh c2
  | _ => false

/-- A numbered-list line: optional indentation, digits, a period, then
whitespace. -/
def numberedLine (line : List Char) : Bool :=
  let r := line.dropWhile isSpaceCh
  let ds := r.takeWhile Char.isDigit
  !ds.isEmpty &&
    (match r.drop ds.length with
     | '.' :: c2 :: _ => isSpaceCh c2
     | _ => false)

/-- Claim C2 as worded: find the first heading line whose text EQUALS the
candidate name (case-insensitively, here over the lowercased text), then
count the bullet-point and numbered-list lines strictly between it and
the next heading line. -/
def claimOneSection (name : List Char) : List (List Char) → Nat
  | [] => 0
  | ln :: rest =>
    if headingTextOf ln == some name then
      ((rest.takeWhile (fun l2 => !(headingTextOf l2).isSome)).filter
          (fun l2 => bulletLine l2 || numberedLine l2)).length
    else claimOneSection name rest

/-- Claim C2 as worded, summed over the candidate names. -/
def claimSectionItems (names : List (List Char)) (content : List Char) : Nat :=
  (names.map (fun n => claimOneSection n (splitLines (toLowerL content)))).sum

/-- Position-based search: the first index whose suffix matches `f`,
with the value of `f` there. -/
def scanIdx (f : List Char → Option α) (l : List Char) : Option α :=
  match (List.range (l.length + 1)).find? (fun i => (f (l.drop i)).isSome) with
  | some i => f (l.drop i)
  | none => none

/-- Position of the first next-header sequence (newline, marker run,
whitespace), or the length when there is none. -/
def breakIdx (l : List Char) : Nat :=
  ((List.range l.length).find? (fun j => isBreakAt (l.drop j))).getD l.length

/-- Amended claim C2, per candidate name: locate the first position where
a marker run, optional whitespace and the name occur (the heading may
continue with more text and need not begin a line); the span runs from
the end of that occurrence to the next newline-marker-whitespace
sequence; count the bullet and numbered occurrences in the span. -/
def countOneSectionPos (name low : List Char) : Nat :=
  match scanIdx (headerMatchRem name) low with
  | none => 0
  | some rest =>
    countPat tryBullet (rest.take (breakIdx rest)) +
      countPat tryNumbered (rest.take (breakIdx rest))

/-- Amended claim C2 summed over the candidate names. -/
def countSectionItemsPos (names : List (List Char)) (content : List Char) : Nat :=
  (names.map (fun n => countOneSectionPos n (toLowerL content))).sum

/-- Amended claim C8: the first line satisfying the selection test, found
by `List.find?`, with the marker prefix stripped; the default otherwise. -/
def extractTitleFind (content : List Char) : List Char :=
  match (splitLines content).find? titleLineOk with
  | some ln => reSubHashWs (stripL ln)
  | none => "Release Documentation".data

/-- Claim C1 as worded: the release-type priority order with the version
test an EXACT match of the pattern (no trailing-newline allowance). -/
def claimReleaseType (version content : List Char) : String :=
  if matchMajorCore version then "Major Release"
  else if countFeatures content > 3 then "Feature Release"
  else if fixKeywords.any (fun k => containsSub k (toLowerL content)) then
    "Maintenance Release"
  else "Standard Release"

/-- Declarative form of the version strings accepted by
`re.match(r'v?\d+\.0(?:\.0)?$', version)`: an optional `v`, a nonempty
digit run, `.0` or `.0.0`, and an optional single trailing newline
(Python dollar-anchor semantics). -/
def MajorVersion (v : List Char) : Prop :=
  ∃ pre ds suf nl : List Char,
    pre ∈ ([[], ['v']] : List (List Char)) ∧
    ds ≠ [] ∧ (∀ c ∈ ds, c.isDigit = true) ∧
    suf ∈ ([['.', '0'], ['.', '0', '.', '0']] : List (List Char)) ∧
    nl ∈ ([[], ['\n']] : List (List Char)) ∧
    v = pre ++ ds ++ suf ++ nl

/-- Declarative form of the maintenance-keyword test: some keyword is a
contiguous substring of the lowercased text. -/
def HasFixKeyword (content : List Char) : Prop :=
  ∃ k ∈ fixKeywords, k <:+: toLowerL content

/-! ## Helper lemmas -/

theorem tryLiteral_eq_some_iff (n l r : List Char) :
    tryLiteral n l = some r ↔ l = n ++ r := by
  induction n generalizing l with
  | nil => simp [tryLiteral]
  | cons p ps ih =>
    cases l with
    | nil => simp [tryLiteral]
    | cons c t =>
      by_cases h : p = c
      · subst h
        simp [tryLiteral, ih]
      · simp [tryLiteral, h, List.cons.injEq, Ne.symm h]

theorem tryLiteral_isSome_iff (n l : List Char) :
    (tryLiteral n l).isSome = true ↔ n <+: l := by
  rw [Option.isSome_iff_exists]
  constructor
  · rintro ⟨r, hr⟩
    exact ⟨r, ((tryLiteral_eq_some_iff n l r).1 hr).symm⟩
  · rintro ⟨r, hr⟩
    exact ⟨r, (tryLiteral_eq_some_iff n l r).2 hr.symm⟩

theorem scanOpt_isSome_iff (f : List Char → Option α) (l : List Char) :
    (scanOpt f l).isSome = true ↔ ∃ s, s <:+ l ∧ (f s).isSome = true := by
  induction l with
  | nil =>
    simp only [scanOpt]
    constructor
    · intro h
      exact ⟨[], List.suffix_refl _, h⟩
    · rintro ⟨s, hs, hfs⟩
      rwa [List.suffix_nil.1 hs] at hfs
  | cons c t ih =>
    simp only [scanOpt]
    cases hf : f (c :: t) with
    | some a =>
      constructor
      · intro _
        exact ⟨c :: t, List.suffix_refl _, by simp [hf]⟩
      · intro _
        rfl
    | none =>
      rw [ih]
      constructor
      · rintro ⟨s, hs, hfs⟩
        exact ⟨s, hs.trans (List.suffix_cons c t), hfs⟩
      · rintro ⟨s, hs, hfs⟩
        rcases List.suffix_cons_iff.1 hs with h | h
        · subst h
          rw [hf] at hfs
          simp at hfs
        · exact ⟨s, h, hfs⟩

theorem containsSub_iff (n h : List Char) :
    containsSub n h = true ↔ n <:+: h := by
  rw [containsSub, scanOpt_isSome_iff, List.infix_iff_prefix_suffix]
  constructor
  · rintro ⟨s, hs, hp⟩
    exact ⟨s, (tryLiteral_isSome_iff n s).1 hp, hs⟩
  · rintro ⟨t, hp, hs⟩
    exact ⟨t, hs, (tryLiteral_isSome_iff n t).2 hp⟩

theorem findq_map (g : β → γ) (p : γ → Bool) (l : List β) :
    (l.map g).find? p = (l.find? (fun b => p (g b))).map g := by
  induction l with
  | nil => rfl
  | cons b bt ih =>
    simp only [List.map_cons, List.find?]
    cases h : p (g b) with
    | true => rfl
    | false => simpa using ih

theorem scanOpt_eq_scanIdx (f : List Char → Option α) (l : List Char) :
    scanOpt f l = scanIdx f l := by
  induction l with
  | nil =>
    simp only [scanIdx, List.length_nil, Nat.zero_add]
    rw [show List.range 1 = [0] from rfl]
    cases hf : f [] with
    | some a => simp [scanOpt, List.find?, hf]
    | none => simp [scanOpt, List.find?, hf]
  | cons c t ih =>
    simp only [scanIdx, List.length_cons]
    rw [List.range_succ_eq_map]
    cases hf : f (c :: t) with
    | some a =>
      rw [List.find?_cons_of_pos _ (by simp [hf])]
      simp [scanOpt, hf]
    | none =>
      rw [List.find?_cons_of_neg _ (by simp [hf]), findq_map]
      simp only [List.drop_succ_cons]
      rw [scanIdx] at ih
      cases hF : List.find? (fun j => (f (List.drop j t)).isSome) (List.range (t.length + 1)) with
      | some j =>
        rw [hF] at ih
        simp only at ih
        simp [scanOpt, hf, ih, List.drop_succ_cons]
      | none =>
        rw [hF] at ih
        simp only at ih
        simp [scanOpt, hf, ih]

theorem spanUntilHeader_eq_take (l : List Char) :
    spanUntilHeader l = l.take (breakIdx l) := by
  induction l with
  | nil => rfl
  | cons c t ih =>
    unfold spanUntilHeader breakIdx
    by_cases hb : isBreakAt (c :: t) = true
    · rw [if_pos hb, List.length_cons, List.range_succ_eq_map,
        List.find?_cons_of_pos _ (by simpa using hb)]
      rfl
    · rw [if_neg hb, List.length_cons, List.range_succ_eq_map,
        List.find?_cons_of_neg _ (by simpa using hb), findq_map]
      simp only [List.drop_succ_cons]
      rw [breakIdx] at ih
      cases hF : List.find? (fun j => isBreakAt (List.drop j t)) (List.range t.length) with
      | some j =>
        rw [hF] at ih
        rw [Option.getD_some] at ih
        simp [ih]
      | none =>
        rw [hF] at ih
        rw [Option.getD_none] at ih
        simp [ih, List.take_length]

theorem extractTitleLines_eq_find (lns : List (List Char)) :
    extractTitleLines lns =
      (match lns.find? titleLineOk with
       | some ln => reSubHashWs (stripL ln)
       | none => "Release Documentation".data) := by
  induction lns with
  | nil => rfl
  | cons ln rest ih =>
    by_cases h : titleLineOk ln = true
    · rw [extractTitleLines, if_pos h, List.find?_cons_of_pos _ h]
    · rw [extractTitleLines, if_neg h, List.find?_cons_of_neg _ (by simpa using h), ih]

theorem takeWhile_all_append {p : Char → Bool} (xs ys : List Char)
    (h1 : ∀ c ∈ xs, p c = true)
    (h2 : ∀ c, ys.head? = some c → p c = false) :
    (xs ++ ys).takeWhile p = xs := by
  induction xs with
  | nil =>
    cases ys with
    | nil => rfl
    | cons c t => simp [List.takeWhile_cons, h2 c rfl]
  | cons x xt ih =>
    have hx : p x = true := h1 x (by simp)
    simp only [List.cons_append, List.takeWhile_cons, hx, if_true]
    rw [ih (fun c hc => h1 c (by simp [hc]))]

theorem getLastq_decomp {l : List Char} {a : Char} (h : l.getLast? = some a) :
    l = l.dropLast ++ [a] := by
  induction l with
  | nil => simp at h
  | cons c t ih =>
    cases t with
    | nil =>
      simp only [List.getLast?_singleton, Option.some.injEq] at h
      simp [h]
    | cons d u =>
      rw [List.getLast?_cons_cons] at h
      have hrec := ih h
      calc c :: d :: u = c :: ((d :: u).dropLast ++ [a]) := by rw [← hrec]
        _ = (c :: d :: u).dropLast ++ [a] := rfl

theorem stringMk_injective : Function.Injective String.mk := by
  intro a b h
  injection h

theorem highlights_length_le (content : List Char) :
    (extractTechnicalHighlights content).length ≤ 5 := by
  unfold extractTechnicalHighlights
  rw [List.length_map]
  exact List.length_take_le _ _

theorem takeWhile_drop_decomp (p : Char → Bool) (l : List Char) :
    l = l.takeWhile p ++ l.drop (l.takeWhile p).length := by
  induction l with
  | nil => rfl
  | cons c t ih =>
    by_cases h : p c
    · simp only [List.takeWhile_cons, h, if_true, List.length_cons,
        List.drop_succ_cons, List.cons_append, List.cons.injEq, true_and]
      exact ih
    · simp [List.takeWhile_cons, h]

theorem matchMajorCore_iff (l : List Char) :
    matchMajorCore l = true ↔
      ∃ pre ds suf : List Char,
        pre ∈ ([[], ['v']] : List (List Char)) ∧ ds ≠ [] ∧
        (∀ c ∈ ds, c.isDigit = true) ∧
        suf ∈ ([['.', '0'], ['.', '0', '.', '0']] : List (List Char)) ∧
        l = pre ++ ds ++ suf := by
  constructor
  · intro h
    simp only [matchMajorCore, Bool.and_eq_true, Bool.or_eq_true, beq_iff_eq] at h
    obtain ⟨hne, hsuf⟩ := h
    have hne2 : (dropV l).takeWhile Char.isDigit ≠ [] := by
      intro hh
      rw [hh] at hne
      simp at hne
    have hdig : ∀ c ∈ (dropV l).takeWhile Char.isDigit, c.isDigit = true :=
      fun c hc => List.mem_takeWhile_imp hc
    have hdecomp := takeWhile_drop_decomp Char.isDigit (dropV l)
    have hkey : ∃ suf ∈ ([['.', '0'], ['.', '0', '.', '0']] : List (List Char)),
        dropV l = (dropV l).takeWhile Char.isDigit ++ suf := by
      rcases hsuf with h1 | h1
      · exact ⟨['.', '0'], by simp, by rw [← h1]; exact hdecomp⟩
      · exact ⟨['.', '0', '.', '0'], by simp, by rw [← h1]; exact hdecomp⟩
    obtain ⟨suf, hsufmem, hval⟩ := hkey
    cases l with
    | nil => exact absurd rfl hne2
    | cons c t =>
      by_cases hc : c = 'v'
      · subst hc
        have hdv : dropV ('v' :: t) = t := by simp [dropV]
        rw [hdv] at hval hne2 hdig
        exact ⟨['v'], t.takeWhile Char.isDigit, suf, by simp, hne2, hdig, hsufmem,
          by simpa using hval⟩
      · have hdv : dropV (c :: t) = c :: t := by simp [dropV, hc]
        rw [hdv] at hval hne2 hdig
        exact ⟨[], (c :: t).takeWhile Char.isDigit, suf, by simp, hne2, hdig, hsufmem,
          by simpa using hval⟩
  · rintro ⟨pre, ds, suf, hpre, hds, hdig, hsuf, rfl⟩
    have hdV : dropV (pre ++ ds ++ suf) = ds ++ suf := by
      rcases (by simpa using hpre : pre = [] ∨ pre = ['v']) with rfl | rfl
      · cases ds with
        | nil => exact absurd rfl hds
        | cons d dt =>
          have hd : d.isDigit = true := hdig d (by simp)
          have hdv : ¬ d = 'v' := by
            intro hh
            rw [hh] at hd
            exact absurd hd (by decide)
          simp [dropV, hdv]
      · simp [dropV]
    have hsufhead : ∀ c, suf.head? = some c → Char.isDigit c = false := by
      rcases (by simpa using hsuf : suf = ['.', '0'] ∨ suf = ['.', '0', '.', '0']) with
        rfl | rfl <;>
        · intro c hc
          simp only [List.head?_cons, Option.some.injEq] at hc
          rw [← hc]
          decide
    have htw : (ds ++ suf).takeWhile Char.isDigit = ds :=
      takeWhile_all_append ds suf hdig hsufhead
    simp only [matchMajorCore, hdV, htw, List.drop_left]
    cases ds with
    | nil => exact absurd rfl hds
    | cons d dt =>
      rcases (by simpa using hsuf : suf = ['.', '0'] ∨ suf = ['.', '0', '.', '0']) with
        rfl | rfl <;> simp

theorem isMajorVersion_iff (v : List Char) :
    isMajorVersion v = true ↔ MajorVersion v := by
  unfold isMajorVersion MajorVersion
  rw [Bool.or_eq_true, Bool.and_eq_true]
  constructor
  · rintro (hcore | ⟨hlast, hcore⟩)
    · rcases (matchMajorCore_iff _).1 hcore with ⟨pre, ds, suf, hpre, hds, hdig, hsuf, heq⟩
      exact ⟨pre, ds, suf, [], hpre, hds, hdig, hsuf, by simp, by simpa using heq⟩
    · rcases (matchMajorCore_iff _).1 hcore with ⟨pre, ds, suf, hpre, hds, hdig, hsuf, heq⟩
      have hl : v.getLast? = some '\n' := by simpa using hlast
      refine ⟨pre, ds, suf, ['\n'], hpre, hds, hdig, hsuf, by simp, ?_⟩
      rw [getLastq_decomp hl, heq]
  · rintro ⟨pre, ds, suf, nl, hpre, hds, hdig, hsuf, hnl, rfl⟩
    rcases (by simpa using hnl : nl = [] ∨ nl = ['\n']) with rfl | rfl
    · left
      exact (matchMajorCore_iff _).2 ⟨pre, ds, suf, hpre, hds, hdig, hsuf, by simp⟩
    · right
      have hconc : pre ++ ds ++ suf ++ ['\n'] = (pre ++ ds ++ suf) ++ ['\n'] := by simp
      constructor
      · rw [hconc, List.getLast?_concat]
        decide
      · rw [hconc, List.dropLast_concat]
        exact (matchMajorCore_iff _).2 ⟨pre, ds, suf, hpre, hds, hdig, hsuf, rfl⟩

theorem hasFixKeyword_iff (content : List Char) :
    fixKeywords.any (fun k => containsSub k (toLowerL content)) = true ↔
      HasFixKeyword content := by
  unfold HasFixKeyword
  rw [List.any_eq_true]
  simp only [containsSub_iff]

theorem countOneSection_eq_pos (name low : List Char) :
    countOneSection name low = countOneSectionPos name low := by
  unfold countOneSection countOneSectionPos searchSection
  rw [scanOpt_eq_scanIdx]
  cases h : scanIdx (headerMatchRem name) low with
  | none => rfl
  | some rest => simp [spanUntilHeader_eq_take]

/-! ## Claim theorems -/

/-- C1 (counterexample): the claim requires the version label to match
the pattern EXACTLY, so for the label consisting of `v2.0` followed by a
newline it predicts the priority order to fall through to the
maintenance branch on a text containing `fix`; the code instead
classifies it as a Major Release, because Python's dollar anchor in
`re.match(r'v?\d+\.0(?:\.0)?$', version)` also matches just before a
single trailing newline. -/
theorem C1_counterexample :
    determineReleaseType "v2.0\n".data "hello fix".data = "Major Release" ∧
      claimReleaseType "v2.0\n".data "hello fix".data = "Maintenance Release" := by
  constructor <;> decide

/-- C1 (amended): release_type follows the fixed priority order — version
pattern first (where the version test accepts the exact pattern or the
pattern followed by one trailing newline, per Python dollar-anchor
semantics), then features_count > 3, then the maintenance keywords, else
Standard Release. -/
theorem C1_release_type_priority (v c : List Char) :
    (MajorVersion v → determineReleaseType v c = "Major Release") ∧
    (¬ MajorVersion v → 3 < countFeatures c →
      determineReleaseType v c = "Feature Release") ∧
    (¬ MajorVersion v → ¬ 3 < countFeatures c → HasFixKeyword c →
      determineReleaseType v c = "Maintenance Release") ∧
    (¬ MajorVersion v → ¬ 3 < countFeatures c → ¬ HasFixKeyword c →
      determineReleaseType v c = "Standard Release") := by
  refine ⟨?_, ?_, ?_, ?_⟩
  · intro h
    have hv : isMajorVersion v = true := (isMajorVersion_iff v).2 h
    simp [determineReleaseType, hv]
  · intro h hf
    have hv : isMajorVersion v = false :=
      Bool.eq_false_iff.2 (fun hh => h ((isMajorVersion_iff v).1 hh))
    simp [determineReleaseType, hv, hf]
  · intro h hf hfix
    have hv : isMajorVersion v = false :=
      Bool.eq_false_iff.2 (fun hh => h ((isMajorVersion_iff v).1 hh))
    have hk : fixKeywords.any (fun k => containsSub k (toLowerL c)) = true :=
      (hasFixKeyword_iff c).2 hfix
    simp [determineReleaseType, hv, hf, hk]
  · intro h hf hfix
    have hv : isMajorVersion v = false :=
      Bool.eq_false_iff.2 (fun hh => h ((isMajorVersion_iff v).1 hh))
    have hk : fixKeywords.any (fun k => containsSub k (toLowerL c)) = false :=
      Bool.eq_false_iff.2 (fun hh => hfix ((hasFixKeyword_iff c).1 hh))
    simp [determineReleaseType, hv, hf, hk]

/-- C1 (witness): for version `v2.0` and a text that contains `fix` and
more than three feature mentions, the version branch dominates. -/
theorem C1_witness :
    MajorVersion "v2.0".data ∧
      determineReleaseType "v2.0".data
        "fix new feature new feature new feature new feature".data =
        "Major Release" := by
  have hm : MajorVersion "v2.0".data :=
    ⟨['v'], ['2'], ['.', '0'], [], by decide, by decide, by decide, by decide,
      by decide, by decide⟩
  exact ⟨hm, (C1_release_type_priority "v2.0".data
    "fix new feature new feature new feature new feature".data).1 hm⟩

/-- C2 (counterexample): for the text `## features extra` followed by two
bullet lines, no heading line has text EQUAL to a candidate name of the
features category, so the claim predicts a contribution of 0; the code
counts 2, because its header search only requires the marker run,
optional whitespace and the name to occur at some position — the heading
may continue with further text. -/
theorem C2_counterexample :
    countSectionItems featureSections "## features extra\n- a\n- b".data = 2 ∧
      claimSectionItems featureSections "## features extra\n- a\n- b".data = 0 := by
  constructor <;> decide

/-- C2 (amended): for every count category the section-item contribution
equals the position-based description: for each candidate name, find the
first position where a marker run, optional whitespace and the name
occur (the heading may continue with more text and need not begin a
line), take the span from the end of that occurrence to the next
newline-marker-whitespace sequence (or the end), count the
non-overlapping bullet-point and numbered-list occurrences in the span,
and sum over all candidate names found. -/
theorem C2_section_items (names : List (List Char)) (content : List Char) :
    countSectionItems names content = countSectionItemsPos names content := by
  unfold countSectionItems countSectionItemsPos
  simp only [countOneSection_eq_pos]

/-- C3: the complexity score equals the documented word-count rule — the
technical-count disjuncts can never fire because the highlight list is
capped at five — and it always lies in the three-value range. -/
theorem C3_complexity_score (content : List Char) :
    calculateComplexityScore content =
      (if wordCount content > 1000 then "High"
       else if wordCount content > 500 then "Medium"
       else "Low") ∧
    (calculateComplexityScore content = "Low" ∨
      calculateComplexityScore content = "Medium" ∨
      calculateComplexityScore content = "High") := by
  have h5 : (extractTechnicalHighlights content).length ≤ 5 :=
    highlights_length_le content
  have h10 : ¬ (extractTechnicalHighlights content).length > 10 := by omega
  have h5b : ¬ (extractTechnicalHighlights content).length > 5 := by omega
  have hmain : calculateComplexityScore content =
      (if wordCount content > 1000 then "High"
       else if wordCount content > 500 then "Medium"
       else "Low") := by
    unfold calculateComplexityScore
    by_cases h1 : wordCount content > 1000
    · simp [h1]
    · by_cases h2 : wordCount content > 500
      · simp [h1, h2, h10, h5b]
      · simp [h1, h2, h10, h5b]
  refine ⟨hmain, ?_⟩
  rw [hmain]
  by_cases h1 : wordCount content > 1000
  · simp [h1]
  · by_cases h2 : wordCount content > 500 <;> simp [h1, h2]

/-- C4: empty document text yields exactly the fixed empty-analysis
record — all counts zero (including mr_count, whatever the collaborator
count is), Low complexity, Unknown release type, default title and
summary, no highlights, and the current date — and no error. -/
theorem C4_empty_input (v now : String) (mrCount : Nat) :
    analyzeReleaseContent "" v now mrCount =
      { title := "Release Documentation"
        summary := "No content available for analysis."
        features_count := 0
        improvements_count := 0
        changes_count := 0
        mr_count := 0
        project_name := "Project"
        release_date := now
        technical_highlights := []
        complexity_score := "Low"
        release_type := "Unknown" } := rfl

/-- C5 (counterexample): the engine is not independent of call time: for
a text with no date pattern the release_date field is the current-date
string, so two invocations at different times differ. -/
theorem C5_counterexample :
    analyzeReleaseContent "x" "v1.1" "January 01, 2025" 0 ≠
      analyzeReleaseContent "x" "v1.1" "February 02, 2025" 0 := by
  decide

/-- C5 (amended): analyze is a pure function of the document text, the
version label, the current-date string and the externally supplied MR
count: every field other than mr_count and release_date depends only on
(text, version); mr_count agrees whenever the collaborator counts agree;
and release_date is independent of call time whenever the text contains
a date pattern. -/
theorem C5_determinism (c v now1 now2 : String) (mc1 mc2 : Nat) :
    (mc1 = mc2 →
      (analyzeReleaseContent c v now1 mc1).mr_count =
        (analyzeReleaseContent c v now2 mc2).mr_count) ∧
    ((extractReleaseDateOpt c.data).isSome = true →
      (analyzeReleaseContent c v now1 mc1).release_date =
        (analyzeReleaseContent c v now2 mc2).release_date) ∧
    (analyzeReleaseContent c v now1 mc1).title =
      (analyzeReleaseContent c v now2 mc2).title ∧
    (analyzeReleaseContent c v now1 mc1).summary =
      (analyzeReleaseContent c v now2 mc2).summary ∧
    (analyzeReleaseContent c v now1 mc1).features_count =
      (analyzeReleaseContent c v now2 mc2).features_count ∧
    (analyzeReleaseContent c v now1 mc1).improvements_count =
      (analyzeReleaseContent c v now2 mc2).improvements_count ∧
    (analyzeReleaseContent c v now1 mc1).changes_count =
      (analyzeReleaseContent c v now2 mc2).changes_count ∧
    (analyzeReleaseContent c v now1 mc1).project_name =
      (analyzeReleaseContent c v now2 mc2).project_name ∧
    (analyzeReleaseContent c v now1 mc1).technical_highlights =
      (analyzeReleaseContent c v now2 mc2).technical_highlights ∧
    (analyzeReleaseContent c v now1 mc1).complexity_score =
      (analyzeReleaseContent c v now2 mc2).complexity_score ∧
    (analyzeReleaseContent c v now1 mc1).release_type =
      (analyzeReleaseContent c v now2 mc2).release_type := by
  unfold analyzeReleaseContent
  by_cases hc : c = ""
  · subst hc
    simp only [if_pos rfl]
    exact ⟨fun _ => by trivial, fun h => absurd h (by decide), by trivial, by trivial,
      by trivial, by trivial, by trivial, by trivial, by trivial, by trivial, by trivial⟩
  · simp only [if_neg hc]
    refine ⟨fun h => by simp [h], fun h => ?_, by trivial, by trivial, by trivial,
      by trivial, by trivial, by trivial, by trivial, by trivial, by trivial⟩
    cases hopt : extractReleaseDateOpt c.data with
    | none => rw [hopt] at h; simp at h
    | some g => rfl

/-- C5 (witness): with equal collaborator counts and a text containing a
date pattern, mr_count and release_date agree across call times. -/
theorem C5_witness :
    (analyzeReleaseContent "Released January 01, 2025" "v1.1" "May 05, 2025" 3).mr_count =
      (analyzeReleaseContent "Released January 01, 2025" "v1.1" "June 06, 2025" 3).mr_count ∧
    (analyzeReleaseContent "Released January 01, 2025" "v1.1" "May 05, 2025" 3).release_date =
      (analyzeReleaseContent "Released January 01, 2025" "v1.1" "June 06, 2025" 3).release_date :=
  ⟨(C5_determinism "Released January 01, 2025" "v1.1" "May 05, 2025" "June 06, 2025" 3 3).1
      rfl,
   (C5_determinism "Released January 01, 2025" "v1.1" "May 05, 2025" "June 06, 2025" 3 3).2.1
      (by decide)⟩

/-- C6: for every non-empty document text, features_count is floored at
one while improvements_count and changes_count are merely non-negative. -/
theorem C6_features_floor (c v now : String) (mc : Nat) (h : c ≠ "") :
    1 ≤ (analyzeReleaseContent c v now mc).features_count ∧
    0 ≤ (analyzeReleaseContent c v now mc).improvements_count ∧
    0 ≤ (analyzeReleaseContent c v now mc).changes_count := by
  unfold analyzeReleaseContent
  rw [if_neg h]
  refine ⟨?_, Nat.zero_le _, Nat.zero_le _⟩
  show 1 ≤ countFeatures c.data
  unfold countFeatures
  exact Nat.le_max_right _ 1

/-- C6 (witness): the floor at a concrete non-empty input. -/
theorem C6_witness :
    ("update" : String) ≠ "" ∧
      (1 ≤ (analyzeReleaseContent "update" "v1.1" "May 05, 2025" 0).features_count ∧
       0 ≤ (analyzeReleaseContent "update" "v1.1" "May 05, 2025" 0).improvements_count ∧
       0 ≤ (analyzeReleaseContent "update" "v1.1" "May 05, 2025" 0).changes_count) :=
  ⟨by decide, C6_features_floor "update" "v1.1" "May 05, 2025" 0 (by decide)⟩

/-- C7: the technical-highlights list is duplicate-free and has at most
five entries, for every input text. -/
theorem C7_highlights (content : List Char) :
    (extractTechnicalHighlights content).Nodup ∧
      (extractTechnicalHighlights content).length ≤ 5 := by
  refine ⟨?_, highlights_length_le content⟩
  unfold extractTechnicalHighlights
  exact ((List.nodup_dedup _).sublist (List.take_sublist _ _)).map stringMk_injective

/-- C8 (counterexample): for the text consisting only of `##`, the claim
requires heading markers FOLLOWED BY NON-EMPTY TEXT and a never-empty
result; the code selects the line (its stripped length exceeds one) and
returns the empty string after stripping the marker run. -/
theorem C8_counterexample :
    extractTitle "##".data = [] ∧ ([] : List Char) ≠ "Release Documentation".data := by
  constructor <;> decide

/-- C8 (amended): title extraction scans lines in order and returns the
first line whose trimmed form starts with a heading marker and has
length at least two, with the leading marker run and following
whitespace stripped (which may leave an empty title, e.g. for a line of
bare markers); if no such line exists it returns the default. -/
theorem C8_title_extraction (content : List Char) :
    extractTitle content = extractTitleFind content := by
  unfold extractTitle extractTitleFind
  exact extractTitleLines_eq_find (splitLines content)

/-- C9 (counterexample): for empty document text the project_name field
is the empty-analysis default `Project`, not the claimed
`Library Management System`. -/
theorem C9_counterexample :
    (analyzeReleaseContent "" "v1.0" "March 03, 2025" 7).project_name = "Project" ∧
      ("Project" : String) ≠ "Library Management System" := by
  constructor <;> decide

/-- C9 (amended): for empty document text the project_name field equals
the empty-analysis default `Project`; the label
`Library Management System` is the no-match default of project-name
extraction itself (e.g. on text with no project pattern). -/
theorem C9_empty_project_name (v now : String) (mc : Nat) :
    (analyzeReleaseContent "" v now mc).project_name = "Project" ∧
      extractProjectName [] = "Library Management System" :=
  ⟨rfl, rfl⟩

/-- C10: the MR record's impact and lines_changed fields are functions of
the whitespace-delimited word count alone, with the documented
thresholds. -/
theorem C10_mr_impact (content : String) :
    ((analyzeMrContent content).impact = "High" ↔ 500 < wordCount content.data) ∧
    ((analyzeMrContent content).impact = "Medium" ↔
      (200 < wordCount content.data ∧ wordCount content.data ≤ 500)) ∧
    ((analyzeMrContent content).impact = "Low" ↔ wordCount content.data ≤ 200) ∧
    ((analyzeMrContent content).lines_changed = "100+" ↔ 300 < wordCount content.data) ∧
    ((analyzeMrContent content).lines_changed = "50-100" ↔
      (150 < wordCount content.data ∧ wordCount content.data ≤ 300)) ∧
    ((analyzeMrContent content).lines_changed = "<50" ↔ wordCount content.data ≤ 150) := by
  have himp : (analyzeMrContent content).impact = assessMrImpact content.data := rfl
  have hlin : (analyzeMrContent content).lines_changed =
      estimateLinesChanged content.data := rfl
  rw [himp, hlin]
  unfold assessMrImpact estimateLinesChanged
  by_cases h1 : wordCount content.data > 500 <;>
    by_cases h2 : wordCount content.data > 200 <;>
    by_cases h3 : wordCount content.data > 300 <;>
    by_cases h4 : wordCount content.data > 150 <;>
    simp [h1, h2, h3, h4] <;> omega
